import Mathlib

/-!
Verification of the WAFu rule-evaluation engine and request pipeline.

The definitions below are a shallow embedding of the JavaScript source:
  - src/route-rules-do.js   : getRequestData, checkCondition, evaluateExpression,
                              RouteRulesDO.handleEvaluate
  - src/globa-rules-do.js   : GlobalRulesDO.evaluate (RPC version), findMatchingRoute
  - src/worker.js           : the public-traffic fetch pipeline (ROUTE 4)

JavaScript values reaching the evaluator are modelled by `JSVal`; absent
values (missing keys and undefined) are modelled by `Option`. Machine
platform builtins used by the source (URL parsing, the RegExp engine) are
modelled structurally: URL components are carried as request fields, and
the regular-expression engine is a small concrete engine with a parser
that rejects malformed patterns and a matcher that folds letter case,
mirroring the always-passed "i" flag.
-/

/-- A JavaScript value as seen by the rule engine: strings, numbers
(modelled as integers), booleans and arrays. -/
inductive JSVal where
  | str (s : String)
  | num (n : Int)
  | bool (b : Bool)
  | arr (vs : List JSVal)
deriving Repr

mutual

/-- Structural boolean equality on `JSVal`. -/
def jsvalBeq : JSVal → JSVal → Bool
  | .str s, .str t => s == t
  | .num a, .num b => a == b
  | .bool a, .bool b => a == b
  | .arr xs, .arr ys => jsvalListBeq xs ys
  | _, _ => false

/-- Elementwise boolean equality on lists of `JSVal`. -/
def jsvalListBeq : List JSVal → List JSVal → Bool
  | [], [] => true
  | x :: xs, y :: ys => jsvalBeq x y && jsvalListBeq xs ys
  | _, _ => false

end

instance : BEq JSVal := ⟨jsvalBeq⟩

/-- Whether a `JSVal` is a string (the typeof check of the source). -/
def JSVal.isStr : JSVal → Bool
  | .str _ => true
  | _ => false

/-- ASCII lower-casing on character codes; this is the case folding used by
the model regular-expression engine and header-key normalisation. -/
def lowerNat (n : Nat) : Nat :=
  if 65 ≤ n ∧ n ≤ 90 then n + 32 else n

/-- ASCII lower-casing of a character. -/
def lowerChar (c : Char) : Char :=
  Char.ofNat (lowerNat c.toNat)

/-- ASCII lower-casing of a string (models String.prototype.toLowerCase on
the ASCII keys the source lower-cases). -/
def lowerStr (s : String) : String :=
  String.mk (s.data.map lowerChar)

/-- Whether the first list is a leading block of the second. -/
def listLeads : List Char → List Char → Bool
  | [], _ => true
  | _ :: _, [] => false
  | a :: as, b :: bs => a == b && listLeads as bs

/-- Whether the first list occurs contiguously inside the second. -/
def listInside (nee : List Char) : List Char → Bool
  | [] => nee.isEmpty
  | b :: bs => listLeads nee (b :: bs) || listInside nee bs

/-- Models String.prototype.includes: the needle occurs in the haystack. -/
def strIncludes (hay nee : String) : Bool :=
  listInside nee.data hay.data

/-- Models String.prototype.startsWith. -/
def strStarts (s pre : String) : Bool :=
  listLeads pre.data s.data

/-- Models String.prototype.endsWith. -/
def strEnds (s suf : String) : Bool :=
  listLeads suf.data.reverse s.data.reverse

mutual

/-- String representation of a `JSVal`, as JavaScript string coercion
produces it (arrays join their elements with commas). -/
def jsToString : JSVal → String
  | .str s => s
  | .num n => toString n
  | .bool b => if b then "true" else "false"
  | .arr vs => jsToStringList vs

/-- String coercion of an array body: elements joined with commas. -/
def jsToStringList : List JSVal → String
  | [] => ""
  | [v] => jsToString v
  | v :: rest => jsToString v ++ "," ++ jsToStringList rest

end

/-- Numeric reading of a string: trimmed, empty means zero, otherwise an
integer literal; anything else is NaN, modelled as `none`. -/
def strToNum (s : String) : Option Int :=
  let t := s.trim
  if t = "" then some 0 else t.toInt?

/-- Numeric coercion of a `JSVal` (ToNumber); `none` models NaN. -/
def jsToNum : JSVal → Option Int
  | .num n => some n
  | .bool b => some (if b then 1 else 0)
  | .str s => strToNum s
  | .arr _ => none

/-- Loose equality between JavaScript values: same primitive type compares
structurally, strings and booleans coerce to numbers against numbers, and
distinct array references are never loosely equal. -/
def looseEq (a b : JSVal) : Bool :=
  match a, b with
  | .str s, .str t => s == t
  | .num x, .num y => x == y
  | .bool x, .bool y => x == y
  | .str s, .num n => strToNum s == some n
  | .num n, .str s => strToNum s == some n
  | .bool x, .num n => (if x then (1 : Int) else 0) == n
  | .num n, .bool x => (if x then (1 : Int) else 0) == n
  | .bool x, .str s => strToNum s == some (if x then (1 : Int) else 0)
  | .str s, .bool x => strToNum s == some (if x then (1 : Int) else 0)
  | _, _ => false

/-- SameValueZero equality, used by Array.prototype.includes; the rule
list and the projected value come from different sources, so two arrays
are never the same reference. -/
def strictEq (a b : JSVal) : Bool :=
  match a, b with
  | .str s, .str t => s == t
  | .num x, .num y => x == y
  | .bool x, .bool y => x == y
  | _, _ => false

/-- The JavaScript less-than relation: two strings compare
lexicographically, otherwise both sides coerce to numbers and NaN makes
the comparison false. -/
def jsLess (a b : JSVal) : Bool :=
  match a, b with
  | .str s, .str t => decide (s < t)
  | _, _ =>
    match jsToNum a, jsToNum b with
    | some x, some y => decide (x < y)
    | _, _ => false

/-- The JavaScript greater-than relation. -/
def jsGreater (a b : JSVal) : Bool :=
  jsLess b a

/-- Abstract syntax of the model regular-expression engine: failure,
the empty word, a (case-folded) literal, the any-character dot,
alternation, concatenation, and Kleene star. -/
inductive Rx where
  | fail
  | emp
  | chr (c : Nat)
  | any
  | alt (a b : Rx)
  | cat (a b : Rx)
  | star (a : Rx)
deriving Repr, DecidableEq

/-- Whether a regular expression accepts the empty word. -/
def rxNull : Rx → Bool
  | .fail => false
  | .emp => true
  | .chr _ => false
  | .any => false
  | .alt a b => rxNull a || rxNull b
  | .cat a b => rxNull a && rxNull b
  | .star _ => true

/-- Brzozowski derivative with respect to an input character code; the
literal case folds the input case, which realises the always-passed
case-insensitive flag. -/
def rxDeriv : Rx → Nat → Rx
  | .fail, _ => .fail
  | .emp, _ => .fail
  | .chr p, c => if lowerNat c == p then .emp else .fail
  | .any, _ => .emp
  | .alt a b, c => .alt (rxDeriv a c) (rxDeriv b c)
  | .cat a b, c =>
    if rxNull a then .alt (.cat (rxDeriv a c) b) (rxDeriv b c)
    else .cat (rxDeriv a c) b
  | .star a, c => .cat (rxDeriv a c) (.star a)

/-- Whether some leading block of the input is accepted. -/
def rxHere : Rx → List Nat → Bool
  | r, [] => rxNull r
  | r, c :: cs => rxNull r || rxHere (rxDeriv r c) cs

/-- Whether a match starts at any position of the input; this is the
semantics of RegExp.prototype.test. -/
def rxSearch : Rx → List Nat → Bool
  | r, [] => rxNull r
  | r, c :: cs => rxHere r (c :: cs) || rxSearch r cs

mutual

/-- Parses an alternation (the whole grammar level). Fuel bounds the
recursion depth; the entry point supplies enough for any input. -/
def parseAlt : Nat → List Nat → Option (Rx × List Nat)
  | 0, _ => none
  | fuel + 1, l =>
    match parseCat fuel l with
    | none => none
    | some (r, rest) =>
      match rest with
      | 124 :: rest2 =>
        match parseAlt fuel rest2 with
        | none => none
        | some (r2, rest3) => some (.alt r r2, rest3)
      | _ => some (r, rest)

/-- Parses a possibly empty concatenation of starred atoms. -/
def parseCat : Nat → List Nat → Option (Rx × List Nat)
  | 0, _ => none
  | fuel + 1, l =>
    match parseRep fuel l with
    | none => some (.emp, l)
    | some (r, rest) =>
      match parseCat fuel rest with
      | none => some (r, rest)
      | some (r2, rest2) => some (.cat r r2, rest2)

/-- Parses an atom followed by optional star. -/
def parseRep : Nat → List Nat → Option (Rx × List Nat)
  | 0, _ => none
  | fuel + 1, l =>
    match parseAtom fuel l with
    | none => none
    | some (r, rest) =>
      match rest with
      | 42 :: rest2 => some (.star r, rest2)
      | _ => some (r, rest)

/-- Parses a single atom: a group, the dot, or a literal character.
An opening parenthesis without its closing one fails, as does a bare
metacharacter. -/
def parseAtom : Nat → List Nat → Option (Rx × List Nat)
  | 0, _ => none
  | fuel + 1, l =>
    match l with
    | [] => none
    | 40 :: rest =>
      match parseAlt fuel rest with
      | none => none
      | some (r, 41 :: rest2) => some (r, rest2)
      | some (_, _) => none
    | 41 :: _ => none
    | 124 :: _ => none
    | 42 :: _ => none
    | 46 :: rest => some (.any, rest)
    | c :: rest => some (.chr (lowerNat c), rest)

end

/-- Compiles a pattern string, case-folding literals (the source always
passes the case-insensitive flag); `none` models the RegExp constructor
throwing on a malformed pattern. -/
def compileRegex (pat : String) : Option Rx :=
  let codes := pat.data.map Char.toNat
  match parseAlt (4 * codes.length + 8) codes with
  | some (r, []) => some r
  | _ => none

/-- Runs a compiled pattern over a subject string, searching at every
position, as RegExp.prototype.test does. -/
def strTest (r : Rx) (s : String) : Bool :=
  rxSearch r (s.data.map Char.toNat)

/-- Embedding of the checkCondition helper of src/route-rules-do.js: one
predicate applied to the projected value. The operator is the untyped
string stored in the rule; unknown operators fall through to false. The
try-catch around the RegExp constructor is modelled by the `none` branch
of `compileRegex`. -/
def checkCondition (actualValue : Option JSVal) (operator : String) (ruleValue : JSVal) : Bool :=
  if operator == "is_null" then actualValue.isNone
  else if operator == "is_not_null" then actualValue.isSome
  else
    match actualValue with
    | none => false
    | some a =>
      if operator == "equals" then looseEq a ruleValue
      else if operator == "not_equals" then !looseEq a ruleValue
      else if operator == "contains" then
        a.isStr && strIncludes (jsToString a) (jsToString ruleValue)
      else if operator == "not_contains" then
        a.isStr && !strIncludes (jsToString a) (jsToString ruleValue)
      else if operator == "in" then
        match ruleValue with
        | .arr vs => vs.any (fun v => strictEq v a)
        | _ => false
      else if operator == "not_in" then
        match ruleValue with
        | .arr vs => !vs.any (fun v => strictEq v a)
        | _ => false
      else if operator == "greater_than" then jsGreater a ruleValue
      else if operator == "less_than" then jsLess a ruleValue
      else if operator == "matches" then
        match compileRegex (jsToString ruleValue) with
        | some r => strTest r (jsToString a)
        | none => false
      else if operator == "not_matches" then
        match compileRegex (jsToString ruleValue) with
        | some r => !strTest r (jsToString a)
        | none => false
      else false

/-- One predicate of a rule expression. -/
structure Predicate where
  field : String
  operator : String
  value : JSVal
deriving Repr

/-- Embedding of evaluateExpression of src/route-rules-do.js: predicates
run left to right over the projected data, the first false one decides,
and the empty expression is true. -/
def evaluateExpression (expression : List Predicate) (requestData : String → Option JSVal) : Bool :=
  match expression with
  | [] => true
  | m :: rest =>
    if checkCondition (requestData m.field) m.operator m.value then
      evaluateExpression rest requestData
    else false

/-- A stored rule, mirroring the rules tables of both tenant stores. The
action is the raw text of the action column; block_http_code is nullable. -/
structure Rule where
  id : String
  name : String
  description : String
  enabled : Bool
  action : String
  expression : List Predicate
  tags : List String
  priority : Int
  triggerAlert : Bool
  blockHttpCode : Option Int
deriving Repr

/-- Inserts a rule into an ascending-by-priority list, after every rule of
lower or equal priority; folding the whole list through this realises the
stable sort that Array.prototype.sort performs under the comparator on
priorities. -/
def insertRule (x : Rule) : List Rule → List Rule
  | [] => [x]
  | y :: ys => if y.priority ≤ x.priority then y :: insertRule x ys else x :: y :: ys

/-- Stable ascending sort by priority, as the source applies to the list
of enabled rules before scanning. -/
def sortRules (l : List Rule) : List Rule :=
  l.foldl (fun acc x => insertRule x acc) []

/-- The enabled rules in evaluation order: filter to enabled, then the
stable sort by ascending priority. -/
def activeRules (rules : List Rule) : List Rule :=
  sortRules (rules.filter (fun r => r.enabled))

/-- Whether a rule expression matches the projected data. -/
def ruleMatches (r : Rule) (requestData : String → Option JSVal) : Bool :=
  evaluateExpression r.expression requestData

/-- First rule of the list whose expression matches, in list order; this
is the scanning loop shared by both evaluators. -/
def findFirstMatch (l : List Rule) (requestData : String → Option JSVal) : Option Rule :=
  match l with
  | [] => none
  | r :: rest =>
    if ruleMatches r requestData then some r else findFirstMatch rest requestData

/-- The effective block status of a rule: block_http_code unless it is
null or zero (both falsy), in which case 403. -/
def blockCode (r : Rule) : Int :=
  match r.blockHttpCode with
  | some c => if c == 0 then 403 else c
  | none => 403

/-- The request payload the worker hands to both evaluators. URL parsing
is a platform builtin in the source, so the parsed components (pathname,
search string, query-parameter count) are carried as fields; headers are
the string map built by Object.fromEntries; cf is the open attribute bag,
keyed here by the dotted access path the source reads. -/
structure WafRequest where
  method : String
  url : String
  pathname : String
  search : String
  paramCount : Nat
  hasBodyStream : Bool
  headers : List (String × String)
  cf : List (String × JSVal)
deriving Repr

/-- Last-assignment-wins lookup in a key-value list, as repeated property
assignment on a JavaScript object behaves. -/
def lastLookup (l : List (String × JSVal)) (k : String) : Option JSVal :=
  match l.reverse.find? (fun p => p.1 == k) with
  | some p => some p.2
  | none => none

/-- Lookup of a header value in the worker payload. -/
def hdrLookup (req : WafRequest) (k : String) : Option String :=
  match req.headers.reverse.find? (fun p => p.1 == k) with
  | some p => some p.2
  | none => none

/-- Lookup in the cf attribute bag; a missing attribute is undefined. -/
def cfGet (req : WafRequest) (k : String) : Option JSVal :=
  match req.cf.find? (fun p => p.1 == k) with
  | some p => some p.2
  | none => none

/-- The has_body derivation: the body stream is present and either the
content-length header compares greater than zero (JavaScript coercing
comparison) or the transfer-encoding header is exactly chunked. -/
def derivedHasBody (req : WafRequest) : Bool :=
  req.hasBodyStream &&
    ((match hdrLookup req "content-length" with
      | some s => jsGreater (.str s) (.num 0)
      | none => false) ||
     (hdrLookup req "transfer-encoding" == some "chunked"))

/-- Embedding of getRequestData (identical in both Durable Objects): the
projection of the request into the flat keyed map the rule engine reads.
Entries carry `Option JSVal` because a key can be present with an
undefined value, which the lookup flattens to absence exactly as property
access does. -/
def getRequestData (req : WafRequest) : List (String × Option JSVal) :=
  [ ("request.method", some (.str req.method)),
    ("request.url", some (.str req.url)),
    ("request.cf.httpProtocol", cfGet req "httpProtocol"),
    ("request.cf.requestPriority", cfGet req "requestPriority"),
    ("derived.body.has_body", some (.bool (derivedHasBody req))),
    ("derived.uri.path", some (.str req.pathname)),
    ("derived.uri.query.string", some (.str req.search)),
    ("derived.uri.query.param_count", some (.num req.paramCount)),
    ("request.cf.country", cfGet req "country"),
    ("request.cf.continent", cfGet req "continent"),
    ("request.cf.region", cfGet req "region"),
    ("request.cf.regionCode", cfGet req "regionCode"),
    ("request.cf.city", cfGet req "city"),
    ("request.cf.postalCode", cfGet req "postalCode"),
    ("request.cf.metroCode", cfGet req "metroCode"),
    ("request.cf.timezone", cfGet req "timezone"),
    ("request.cf.latitude", cfGet req "latitude"),
    ("request.cf.longitude", cfGet req "longitude"),
    ("request.cf.isEUCountry", cfGet req "isEUCountry"),
    ("request.cf.colo", cfGet req "colo"),
    ("request.cf.asn", cfGet req "asn"),
    ("request.cf.asOrganization", cfGet req "asOrganization"),
    ("request.cf.clientTcpRtt", cfGet req "clientTcpRtt"),
    ("request.cf.clientAcceptEncoding", cfGet req "clientAcceptEncoding"),
    ("request.cf.threatScore", some ((cfGet req "threatScore").getD (.num 0))),
    ("request.cf.botManagement.score", cfGet req "botManagement.score"),
    ("request.cf.botManagement.verifiedBot", cfGet req "botManagement.verifiedBot"),
    ("request.cf.verifiedBotCategory", cfGet req "verifiedBotCategory"),
    ("request.cf.botManagement.staticResource", cfGet req "botManagement.staticResource"),
    ("request.cf.botManagement.detectionIds", cfGet req "botManagement.detectionIds"),
    ("request.cf.botManagement.jsDetection.passed", cfGet req "botManagement.jsDetection.passed"),
    ("request.cf.tlsVersion", cfGet req "tlsVersion"),
    ("request.cf.tlsCipher", cfGet req "tlsCipher"),
    ("request.cf.botManagement.ja3Hash", cfGet req "botManagement.ja3Hash"),
    ("request.cf.botManagement.ja4", cfGet req "botManagement.ja4"),
    ("request.cf.tlsClientHelloLength", cfGet req "tlsClientHelloLength"),
    ("request.cf.tlsClientRandom", cfGet req "tlsClientRandom"),
    ("request.cf.tlsClientAuth.certIssuerDNLegacy", cfGet req "tlsClientAuth.certIssuerDNLegacy"),
    ("request.cf.tlsClientAuth.certIssuerDN", cfGet req "tlsClientAuth.certIssuerDN"),
    ("request.cf.tlsClientAuth.certSubjectDNLegacy", cfGet req "tlsClientAuth.certSubjectDNLegacy"),
    ("request.cf.tlsClientAuth.certSubjectDN", cfGet req "tlsClientAuth.certSubjectDN"),
    ("request.cf.tlsClientAuth.certPresented", cfGet req "tlsClientAuth.certPresented"),
    ("request.cf.tlsClientAuth.certVerified", cfGet req "tlsClientAuth.certVerified") ]
  ++ req.headers.map (fun kv => ("request.headers." ++ lowerStr kv.1, some (.str kv.2)))

/-- The projected data as the function the evaluators index into; a key
present with an undefined value reads the same as a missing key. -/
def requestDataOf (req : WafRequest) (field : String) : Option JSVal :=
  match (getRequestData req).reverse.find? (fun p => p.1 == field) with
  | some p => p.2
  | none => none

/-- A route record of the global directory. -/
structure Route where
  id : String
  incomingHost : String
  originType : String
  originUrl : Option String
  originServiceName : Option String
  enabled : Bool
deriving Repr, DecidableEq

/-- An error page of the global store. -/
structure ErrorPage where
  httpCode : Int
  name : String
  description : String
  contentType : String
  body : String
deriving Repr, DecidableEq

/-- The cached configuration snapshot of the global store (the parts the
hot path reads). -/
structure GlobalSnapshot where
  routes : List Route
  globalRules : List Rule
  errorPages : List ErrorPage

/-- The resolved block response sent to the client. -/
structure BlockResponse where
  statusCode : Int
  contentType : String
  body : String
deriving Repr, DecidableEq

/-- The outcome of the global evaluation RPC. -/
structure GlobalDecision where
  action : String
  matchedRuleId : Option String
  blockResponse : Option BlockResponse
  matchedRoute : Option Route
deriving Repr, DecidableEq

/-- Resolution of a block status against the error_pages table, with the
hard-coded forbidden fallback, as GlobalRulesDO.evaluate performs it. -/
def resolveBlockResponse (pages : List ErrorPage) (code : Int) : BlockResponse :=
  match pages.find? (fun p => p.httpCode == code) with
  | some p => { statusCode := p.httpCode, contentType := p.contentType, body := p.body }
  | none => { statusCode := 403, contentType := "text/html", body := "<h1>Forbidden</h1>" }

namespace GlobalRulesDO

/-- Embedding of GlobalRulesDO.findMatchingRoute: first the exact host
match, otherwise the first route in list order that starts with the
left wildcard and whose dot-prefixed suffix ends the host. -/
def findMatchingRoute (incomingHost : String) (routes : List Route) : Option Route :=
  match routes.find? (fun r => r.incomingHost == incomingHost) with
  | some r => some r
  | none =>
    routes.find? (fun r =>
      strStarts r.incomingHost "*." &&
      strEnds incomingHost (String.mk ('.' :: r.incomingHost.data.drop 2)))

/-- The host the evaluator routes on: the host header of the payload.
The JavaScript reads the property directly; an absent header is modelled
by the empty string (pipeline theorems assume the header present). -/
def hostOf (req : WafRequest) : String :=
  (hdrLookup req "host").getD ""

/-- Embedding of the GlobalRulesDO.evaluate RPC: scan the enabled global
rules in ascending priority; on a match, return its action, id, the
resolved block response and the matched route; with no matching rule,
admit with ALLOW when a route matches the host, otherwise the NONE
decision. -/
def evaluate (S : GlobalSnapshot) (req : WafRequest) : GlobalDecision :=
  match findFirstMatch (activeRules S.globalRules) (requestDataOf req) with
  | some rule =>
    { action := rule.action,
      matchedRuleId := some rule.id,
      blockResponse := some (resolveBlockResponse S.errorPages (blockCode rule)),
      matchedRoute := findMatchingRoute (hostOf req) S.routes }
  | none =>
    match findMatchingRoute (hostOf req) S.routes with
    | none => { action := "NONE", matchedRuleId := none, blockResponse := none, matchedRoute := none }
    | some r => { action := "ALLOW", matchedRuleId := none, blockResponse := none, matchedRoute := some r }

end GlobalRulesDO

/-- The outcome of the route-tier evaluation. -/
structure RouteDecision where
  action : String
  matchedRuleId : String
  blockHttpCode : Option Int
deriving Repr, DecidableEq

namespace RouteRulesDO

/-- Embedding of RouteRulesDO.handleEvaluate: scan the enabled route
rules in ascending priority; the first match decides; with no match the
default-block outcome carries action BLOCK and the sentinel rule id, and
no block code field. -/
def handleEvaluate (rules : List Rule) (req : WafRequest) : RouteDecision :=
  match findFirstMatch (activeRules rules) (requestDataOf req) with
  | some rule =>
    { action := rule.action, matchedRuleId := rule.id, blockHttpCode := some (blockCode rule) }
  | none =>
    { action := "BLOCK", matchedRuleId := "default-route-block", blockHttpCode := none }

end RouteRulesDO

/-- The terminal outcome of the worker pipeline for public traffic: a
synthesized HTTP response, a dispatch to a service binding, a dispatch to
an upstream URL, the misconfigured-origin error, the landing page, or the
fault of reading a field of an absent block response. -/
inductive PipelineOutcome where
  | response (status : Int) (contentType : Option String) (body : String)
  | dispatchService (name : String)
  | dispatchUrl (u : String)
  | misconfig (host : String)
  | landing
  | jsError
deriving Repr, DecidableEq

/-- Origin dispatch of src/worker.js: a service binding that exists wins,
else a nonempty origin URL, else the misconfiguration error response. -/
def dispatchOrigin (hasService : String → Bool) (route : Route) : PipelineOutcome :=
  if route.originType == "service" &&
     (match route.originServiceName with | some n => hasService n | none => false) then
    .dispatchService (route.originServiceName.getD "")
  else if route.originType == "url" &&
          (match route.originUrl with | some u => u != "" | none => false) then
    .dispatchUrl (route.originUrl.getD "")
  else
    .misconfig route.incomingHost

/-- Embedding of the public-traffic path of the worker fetch handler
(ROUTE 4 of src/worker.js): global evaluation, the terminal global block,
route-tier evaluation behind the ALLOW-plus-route gate, origin dispatch
for ALLOW or LOG, and the landing or deny fallback. A route-tier block
reuses the block response of the global decision; when that decision has
none the worker faults reading it. -/
def workerFetch (S : GlobalSnapshot) (routeRules : String → List Rule)
    (hasService : String → Bool) (req : WafRequest) : PipelineOutcome :=
  let gd := GlobalRulesDO.evaluate S req
  if gd.action == "BLOCK" || gd.action == "CHALLENGE" then
    match gd.blockResponse with
    | some br => .response br.statusCode (some br.contentType) br.body
    | none => .jsError
  else if gd.action == "ALLOW" && gd.matchedRoute.isSome then
    match gd.matchedRoute with
    | some route =>
      let rd := RouteRulesDO.handleEvaluate (routeRules route.id) req
      if rd.action == "ALLOW" || rd.action == "LOG" then
        dispatchOrigin hasService route
      else
        match gd.blockResponse with
        | some br => .response br.statusCode (some br.contentType) br.body
        | none => .jsError
    | none => .jsError
  else if req.pathname == "/" then .landing
  else
    .response 404 none
      ("WAFu: No route configured for host \"" ++ GlobalRulesDO.hostOf req ++ "\".")

/-- Whether the pipeline outcome reached the origin-dispatch stage. -/
def originAdmitted : PipelineOutcome → Bool
  | .dispatchService _ => true
  | .dispatchUrl _ => true
  | .misconfig _ => true
  | _ => false

/-- The global store with its write-invalidated cache: the persisted
snapshot and the optional in-memory copy. -/
structure GlobalStore where
  db : GlobalSnapshot
  cache : Option GlobalSnapshot

/-- Cache load: a miss copies the persisted snapshot into memory, a hit
leaves the store unchanged. -/
def GlobalStore.loadCache (st : GlobalStore) : GlobalStore :=
  match st.cache with
  | some _ => st
  | none => { st with cache := some st.db }

/-- The evaluate RPC as a state transformer over the store: it loads the
cache when absent and evaluates against the cached snapshot. -/
def GlobalStore.evaluateRpc (st : GlobalStore) (req : WafRequest) :
    GlobalDecision × GlobalStore :=
  let st2 := st.loadCache
  (GlobalRulesDO.evaluate (st2.cache.getD st2.db) req, st2)

/-- A route store with its cached ruleset. -/
structure RouteStore where
  db : List Rule
  cache : Option (List Rule)

/-- Cache load of a route store. -/
def RouteStore.loadCache (st : RouteStore) : RouteStore :=
  match st.cache with
  | some _ => st
  | none => { st with cache := some st.db }

/-- The route-tier evaluation as a state transformer over the store. -/
def RouteStore.evaluateRpc (st : RouteStore) (req : WafRequest) :
    RouteDecision × RouteStore :=
  let st2 := st.loadCache
  (RouteRulesDO.handleEvaluate (st2.cache.getD st2.db) req, st2)

/-- A minimal public request: a GET for the root of ex.com with no cf
attributes and only the host header. -/
def reqEx : WafRequest :=
  { method := "GET", url := "https://ex.com/", pathname := "/", search := "",
    paramCount := 0, hasBodyStream := false,
    headers := [("host", "ex.com")], cf := [] }

/-- An enabled rule with an empty expression (matches every request) and
action ALLOW. -/
def ruleAllowAll : Rule :=
  { id := "allow-all", name := "", description := "", enabled := true,
    action := "ALLOW", expression := [], tags := [], priority := 1,
    triggerAlert := false, blockHttpCode := none }

/-- A URL-origin route for the exact host ex.com. -/
def rEx : Route :=
  { id := "route-1", incomingHost := "ex.com", originType := "url",
    originUrl := some "https://origin.example", originServiceName := none,
    enabled := true }

/-- A global snapshot with the ex.com route and no global rules at all. -/
def S0 : GlobalSnapshot :=
  { routes := [rEx], globalRules := [], errorPages := [] }

/-- An enabled always-matching rule with priority 5 and id b. -/
def ruleB : Rule := { ruleAllowAll with id := "b", priority := 5 }

/-- An enabled always-matching rule with priority 5 and id a. -/
def ruleA : Rule := { ruleAllowAll with id := "a", priority := 5 }

/-- A wildcard route for *.ex.com. -/
def rStar : Route := { rEx with id := "r-ex", incomingHost := "*.ex.com" }

/-- A wildcard route for *.com. -/
def rCom : Route := { rEx with id := "r-com", incomingHost := "*.com" }

/-- A global always-matching ALLOW rule carrying block_http_code 500. -/
def gAllow : Rule :=
  { ruleAllowAll with id := "g-allow", blockHttpCode := some 500 }

/-- A stored error page for status 500. -/
def pg500 : ErrorPage :=
  { httpCode := 500, name := "custom", description := "", contentType := "text/plain",
    body := "custom-500" }

/-- A snapshot whose only global rule is the ALLOW rule with code 500 and
whose only error page is the 500 page. -/
def S1 : GlobalSnapshot :=
  { routes := [rEx], globalRules := [gAllow], errorPages := [pg500] }

/-- A global always-matching BLOCK rule with no stored block code. -/
def gBlock : Rule :=
  { ruleAllowAll with id := "g-block", action := "BLOCK" }

/-- A snapshot whose only global rule is the BLOCK rule and which stores
no error pages. -/
def SB : GlobalSnapshot :=
  { routes := [rEx], globalRules := [gBlock], errorPages := [] }

/-- The empty global snapshot: no routes, no rules, no pages. -/
def Sempty : GlobalSnapshot :=
  { routes := [], globalRules := [], errorPages := [] }

/-- Ascending priority between rules, the order the evaluators scan in. -/
abbrev prioLe (a b : Rule) : Prop := a.priority ≤ b.priority

/-- Reference selector over an already-filtered rule list: the first rule
in list order, among those whose expression matches, whose priority is
minimal; an earlier rule beats a later one of equal priority because the
later one must be strictly smaller to displace it. -/
def firstMin0 (l : List Rule) (d : String → Option JSVal) : Option Rule :=
  match l with
  | [] => none
  | x :: rest =>
    if ruleMatches x d then
      match firstMin0 rest d with
      | none => some x
      | some b => if b.priority < x.priority then some b else some x
    else firstMin0 rest d

/-- Reference selector over the stored rule list: the first enabled
matching rule of minimal priority in list order. The rule-set evaluators
are proven to return exactly this rule. -/
def firstMinMatch (rules : List Rule) (d : String → Option JSVal) : Option Rule :=
  match rules with
  | [] => none
  | x :: rest =>
    if x.enabled && ruleMatches x d then
      match firstMinMatch rest d with
      | none => some x
      | some b => if b.priority < x.priority then some b else some x
    else firstMinMatch rest d

theorem mem_insertRule {x y : Rule} : ∀ {l : List Rule}, y ∈ insertRule x l ↔ y = x ∨ y ∈ l := by
  intro l
  induction l with
  | nil => simp [insertRule]
  | cons z zs ih =>
    by_cases h : z.priority ≤ x.priority
    · simp only [insertRule, if_pos h, List.mem_cons, ih]
      tauto
    · simp only [insertRule, if_neg h, List.mem_cons]

theorem mem_sortFold {y : Rule} :
    ∀ (l acc : List Rule),
      y ∈ List.foldl (fun acc x => insertRule x acc) acc l ↔ y ∈ acc ∨ y ∈ l := by
  intro l
  induction l with
  | nil => intro acc; simp
  | cons z zs ih =>
    intro acc
    simp only [List.foldl_cons, ih, mem_insertRule, List.mem_cons]
    tauto

theorem mem_sortRules {y : Rule} {l : List Rule} : y ∈ sortRules l ↔ y ∈ l := by
  unfold sortRules
  simpa using mem_sortFold l []

theorem mem_activeRules {y : Rule} {rules : List Rule} :
    y ∈ activeRules rules ↔ y ∈ rules ∧ y.enabled = true := by
  unfold activeRules
  simp [mem_sortRules, List.mem_filter]

theorem pairwise_insertRule {x : Rule} :
    ∀ {l : List Rule}, List.Pairwise prioLe l → List.Pairwise prioLe (insertRule x l) := by
  intro l
  induction l with
  | nil => intro _; simp [insertRule, List.pairwise_singleton]
  | cons z zs ih =>
    intro h
    rcases List.pairwise_cons.mp h with ⟨hz, hzs⟩
    by_cases hle : z.priority ≤ x.priority
    · simp only [insertRule, if_pos hle]
      refine List.pairwise_cons.mpr ⟨?_, ih hzs⟩
      intro b hb
      rcases mem_insertRule.mp hb with rfl | hb2
      · exact hle
      · exact hz b hb2
    · simp only [insertRule, if_neg hle]
      refine List.pairwise_cons.mpr ⟨?_, h⟩
      intro b hb
      rcases List.mem_cons.mp hb with rfl | hb2
      · exact le_of_lt (lt_of_not_le hle)
      · exact le_trans (le_of_lt (lt_of_not_le hle)) (hz b hb2)

theorem pairwise_sortFold :
    ∀ (l acc : List Rule), List.Pairwise prioLe acc →
      List.Pairwise prioLe (List.foldl (fun acc x => insertRule x acc) acc l) := by
  intro l
  induction l with
  | nil => intro acc h; simpa using h
  | cons z zs ih =>
    intro acc h
    simpa using ih (insertRule z acc) (pairwise_insertRule h)

theorem pairwise_sortRules (l : List Rule) : List.Pairwise prioLe (sortRules l) := by
  unfold sortRules
  exact pairwise_sortFold l [] List.Pairwise.nil

theorem findFirstMatch_some :
    ∀ {l : List Rule} {d : String → Option JSVal} {r : Rule},
      findFirstMatch l d = some r → r ∈ l ∧ ruleMatches r d = true := by
  intro l
  induction l with
  | nil => intro d r h; simp [findFirstMatch] at h
  | cons z zs ih =>
    intro d r h
    cases hm : ruleMatches z d with
    | true =>
      simp only [findFirstMatch, hm, if_pos] at h
      cases h
      exact ⟨List.mem_cons_self z zs, hm⟩
    | false =>
      simp only [findFirstMatch, hm, Bool.false_eq_true, if_false] at h
      rcases ih h with ⟨h1, h2⟩
      exact ⟨List.mem_cons_of_mem z h1, h2⟩

theorem findFirstMatch_eq_none :
    ∀ {l : List Rule} {d : String → Option JSVal},
      findFirstMatch l d = none ↔ ∀ r ∈ l, ruleMatches r d = false := by
  intro l
  induction l with
  | nil => intro d; simp [findFirstMatch]
  | cons z zs ih =>
    intro d
    cases hm : ruleMatches z d with
    | true =>
      simp only [findFirstMatch, hm, if_pos]
      constructor
      · intro h; cases h
      · intro h
        have := h z (List.mem_cons_self z zs)
        rw [this] at hm; cases hm
    | false =>
      simp only [findFirstMatch, hm, Bool.false_eq_true, if_false, ih]
      constructor
      · intro h r hr
        rcases List.mem_cons.mp hr with rfl | hr2
        · exact hm
        · exact h r hr2
      · intro h r hr
        exact h r (List.mem_cons_of_mem z hr)

theorem findFirstMatch_min :
    ∀ {l : List Rule} {d : String → Option JSVal} {r : Rule},
      List.Pairwise prioLe l → findFirstMatch l d = some r →
      ∀ x ∈ l, ruleMatches x d = true → r.priority ≤ x.priority := by
  intro l
  induction l with
  | nil => intro d r _ h; simp [findFirstMatch] at h
  | cons z zs ih =>
    intro d r hp h x hx hmx
    rcases List.pairwise_cons.mp hp with ⟨hz, hzs⟩
    cases hm : ruleMatches z d with
    | true =>
      simp only [findFirstMatch, hm, if_pos] at h
      cases h
      rcases List.mem_cons.mp hx with rfl | hx2
      · exact le_refl _
      · exact hz x hx2
    | false =>
      simp only [findFirstMatch, hm, Bool.false_eq_true, if_false] at h
      rcases List.mem_cons.mp hx with rfl | hx2
      · rw [hmx] at hm; cases hm
      · exact ih hzs h x hx2 hmx

theorem activeRules_no_match {rules : List Rule} {d : String → Option JSVal} :
    (∀ r ∈ rules, r.enabled = true → ruleMatches r d = false) →
    findFirstMatch (activeRules rules) d = none := by
  intro h
  rw [findFirstMatch_eq_none]
  intro r hr
  rcases mem_activeRules.mp hr with ⟨h1, h2⟩
  exact h r h1 h2

theorem evaluateExpression_true_iff :
    ∀ (l : List Predicate) (d : String → Option JSVal),
      evaluateExpression l d = true ↔
        ∀ p ∈ l, checkCondition (d p.field) p.operator p.value = true := by
  intro l d
  induction l with
  | nil => simp [evaluateExpression]
  | cons m rest ih =>
    cases hm : checkCondition (d m.field) m.operator m.value with
    | true =>
      simp only [evaluateExpression, hm, if_pos, ih]
      constructor
      · intro h p hp
        rcases List.mem_cons.mp hp with rfl | hp2
        · exact hm
        · exact h p hp2
      · intro h p hp
        exact h p (List.mem_cons_of_mem m hp)
    | false =>
      simp only [evaluateExpression, hm, Bool.false_eq_true, if_false]
      constructor
      · intro h; cases h
      · intro h
        have := h m (List.mem_cons_self m rest)
        rw [this] at hm; cases hm

theorem sortRules_append (l : List Rule) (x : Rule) :
    sortRules (l ++ [x]) = insertRule x (sortRules l) := by
  unfold sortRules
  rw [List.foldl_append]
  rfl

theorem findFirstMatch_insert {d : String → Option JSVal} {x : Rule} :
    ∀ {L : List Rule}, List.Pairwise prioLe L →
      findFirstMatch (insertRule x L) d =
        if ruleMatches x d = true then
          match findFirstMatch L d with
          | none => some x
          | some b => if x.priority < b.priority then some x else some b
        else findFirstMatch L d := by
  intro L
  induction L with
  | nil =>
    intro _
    by_cases hmx : ruleMatches x d = true <;>
      simp [insertRule, findFirstMatch, hmx]
  | cons y ys ih =>
    intro hp
    rcases List.pairwise_cons.mp hp with ⟨hy, hys⟩
    by_cases hle : y.priority ≤ x.priority
    · have hins : insertRule x (y :: ys) = y :: insertRule x ys := by
        rw [insertRule, if_pos hle]
      rw [hins]
      by_cases hmy : ruleMatches y d = true
      · have h1 : findFirstMatch (y :: insertRule x ys) d = some y := by
          simp [findFirstMatch, hmy]
        have h2 : findFirstMatch (y :: ys) d = some y := by
          simp [findFirstMatch, hmy]
        rw [h1, h2]
        by_cases hmx : ruleMatches x d = true
        · rw [if_pos hmx]
          dsimp only
          rw [if_neg (by omega)]
        · rw [if_neg hmx]
      · have h1 : findFirstMatch (y :: insertRule x ys) d
            = findFirstMatch (insertRule x ys) d := by
          simp [findFirstMatch, hmy]
        have h2 : findFirstMatch (y :: ys) d = findFirstMatch ys d := by
          simp [findFirstMatch, hmy]
        rw [h1, h2, ih hys]
    · have hins : insertRule x (y :: ys) = x :: y :: ys := by
        rw [insertRule, if_neg hle]
      rw [hins]
      by_cases hmx : ruleMatches x d = true
      · have h1 : findFirstMatch (x :: y :: ys) d = some x := by
          simp [findFirstMatch, hmx]
        rw [h1, if_pos hmx]
        cases hb : findFirstMatch (y :: ys) d with
        | none => rfl
        | some b =>
          dsimp only
          have hmem := (findFirstMatch_some hb).1
          have hyb : y.priority ≤ b.priority := by
            rcases List.mem_cons.mp hmem with rfl | h2
            · exact le_refl _
            · exact hy b h2
          rw [if_pos (by omega)]
      · have h1 : findFirstMatch (x :: y :: ys) d = findFirstMatch (y :: ys) d := by
          simp [findFirstMatch, hmx]
        rw [h1, if_neg hmx]

theorem firstMin0_cons (y : Rule) (l : List Rule) (d : String → Option JSVal) :
    firstMin0 (y :: l) d =
      if ruleMatches y d = true then
        match firstMin0 l d with
        | none => some y
        | some b => if b.priority < y.priority then some b else some y
      else firstMin0 l d := rfl

theorem firstMinMatch_cons (y : Rule) (l : List Rule) (d : String → Option JSVal) :
    firstMinMatch (y :: l) d =
      if (y.enabled && ruleMatches y d) = true then
        match firstMinMatch l d with
        | none => some y
        | some b => if b.priority < y.priority then some b else some y
      else firstMinMatch l d := rfl

theorem firstMin0_append :
    ∀ (l : List Rule) (x : Rule) (d : String → Option JSVal),
      firstMin0 (l ++ [x]) d =
        if ruleMatches x d = true then
          match firstMin0 l d with
          | none => some x
          | some b => if x.priority < b.priority then some x else some b
        else firstMin0 l d := by
  intro l
  induction l with
  | nil =>
    intro x d
    by_cases hmx : ruleMatches x d = true <;> simp [firstMin0, hmx]
  | cons y ys ih =>
    intro x d
    rw [List.cons_append, firstMin0_cons, firstMin0_cons, ih]
    by_cases hmy : ruleMatches y d = true
    · by_cases hmx : ruleMatches x d = true
      · simp only [hmy, hmx, if_true]
        cases hb : firstMin0 ys d with
        | none => rfl
        | some b =>
          dsimp only
          by_cases h1 : x.priority < b.priority
          · rw [if_pos h1]
            dsimp only
            by_cases h3 : b.priority < y.priority
            · rw [if_pos h3]
              dsimp only
              rw [if_pos (show x.priority < y.priority by omega), if_pos h1]
            · rw [if_neg h3]
          · rw [if_neg h1]
            dsimp only
            by_cases h3 : b.priority < y.priority
            · rw [if_pos h3]
              dsimp only
              rw [if_neg h1]
            · rw [if_neg h3]
              dsimp only
              rw [if_neg (show ¬ x.priority < y.priority by omega)]
      · simp [hmy, hmx]
    · by_cases hmx : ruleMatches x d = true
      · simp [hmy, hmx]
      · simp [hmy, hmx]

theorem findFirstMatch_sortRules (l : List Rule) (d : String → Option JSVal) :
    findFirstMatch (sortRules l) d = firstMin0 l d := by
  induction l using List.reverseRecOn with
  | nil => rfl
  | append_singleton l x ih =>
    rw [sortRules_append, findFirstMatch_insert (pairwise_sortRules l), ih,
      firstMin0_append]

theorem firstMin0_filter :
    ∀ (rules : List Rule) (d : String → Option JSVal),
      firstMin0 (rules.filter (fun r => r.enabled)) d = firstMinMatch rules d := by
  intro rules
  induction rules with
  | nil => intro d; rfl
  | cons x rest ih =>
    intro d
    by_cases hx : x.enabled = true
    · rw [List.filter_cons_of_pos (by simpa using hx), firstMin0_cons, ih,
        firstMinMatch_cons, hx, Bool.true_and]
    · rw [List.filter_cons_of_neg (by simpa using hx), ih, firstMinMatch_cons]
      have he : x.enabled = false := by
        cases h2 : x.enabled
        · rfl
        · exact absurd h2 hx
      rw [he, Bool.false_and]
      simp

theorem findFirstMatch_activeRules (rules : List Rule) (d : String → Option JSVal) :
    findFirstMatch (activeRules rules) d = firstMinMatch rules d := by
  unfold activeRules
  rw [findFirstMatch_sortRules, firstMin0_filter]

theorem firstMinMatch_split :
    ∀ {rules : List Rule} {d : String → Option JSVal} {rule : Rule},
      firstMinMatch rules d = some rule →
      ∃ pre suf, rules = pre ++ rule :: suf ∧
        ∀ r ∈ pre, r.enabled = true → ruleMatches r d = true →
          rule.priority < r.priority := by
  intro rules
  induction rules with
  | nil => intro d rule h; cases h
  | cons x rest ih =>
    intro d rule h
    rw [firstMinMatch_cons] at h
    by_cases hg : (x.enabled && ruleMatches x d) = true
    · rw [if_pos hg] at h
      cases hb : firstMinMatch rest d with
      | none =>
        rw [hb] at h
        cases h
        exact ⟨[], rest, rfl, by intro r hr; cases hr⟩
      | some b =>
        rw [hb] at h
        dsimp only at h
        by_cases hlt : b.priority < x.priority
        · rw [if_pos hlt] at h
          cases h
          rcases ih hb with ⟨pre, suf, hsplit, hpre⟩
          refine ⟨x :: pre, suf, by rw [hsplit, List.cons_append], ?_⟩
          intro r hr hren hrm
          rcases List.mem_cons.mp hr with rfl | hr2
          · exact hlt
          · exact hpre r hr2 hren hrm
        · rw [if_neg hlt] at h
          cases h
          exact ⟨[], rest, rfl, by intro r hr; cases hr⟩
    · rw [if_neg hg] at h
      rcases ih h with ⟨pre, suf, hsplit, hpre⟩
      refine ⟨x :: pre, suf, by rw [hsplit, List.cons_append], ?_⟩
      intro r hr hren hrm
      rcases List.mem_cons.mp hr with rfl | hr2
      · exfalso; rw [hren, hrm] at hg; exact hg rfl
      · exact hpre r hr2 hren hrm

theorem listFindSplit {α : Type} {p : α → Bool} :
    ∀ {l : List α} {a : α}, l.find? p = some a →
      ∃ pre suf, l = pre ++ a :: suf ∧ ∀ x ∈ pre, p x = false := by
  intro l
  induction l with
  | nil => intro a h; cases h
  | cons x xs ih =>
    intro a h
    cases hp : p x with
    | true =>
      rw [List.find?_cons, hp] at h
      cases h
      exact ⟨[], xs, rfl, by intro y hy; cases hy⟩
    | false =>
      rw [List.find?_cons, hp] at h
      rcases ih h with ⟨pre, suf, hs, hpre⟩
      refine ⟨x :: pre, suf, by rw [hs, List.cons_append], ?_⟩
      intro y hy
      rcases List.mem_cons.mp hy with rfl | hy2
      · exact hp
      · exact hpre y hy2

theorem lowerNat_idem (n : Nat) : lowerNat (lowerNat n) = lowerNat n := by
  unfold lowerNat
  by_cases h : 65 ≤ n ∧ n ≤ 90
  · rw [if_pos h]
    have h2 : ¬(65 ≤ n + 32 ∧ n + 32 ≤ 90) := by omega
    rw [if_neg h2]
  · rw [if_neg h, if_neg h]

theorem rxDeriv_lower (r : Rx) (c : Nat) : rxDeriv r (lowerNat c) = rxDeriv r c := by
  induction r with
  | fail => rfl
  | emp => rfl
  | chr p => simp [rxDeriv, lowerNat_idem]
  | any => rfl
  | alt a b iha ihb => simp [rxDeriv, iha, ihb]
  | cat a b iha ihb => simp [rxDeriv, iha, ihb]
  | star a iha => simp [rxDeriv, iha]

theorem rxHere_lower : ∀ (l : List Nat) (r : Rx), rxHere r (l.map lowerNat) = rxHere r l := by
  intro l
  induction l with
  | nil => intro r; rfl
  | cons c cs ih =>
    intro r
    simp only [List.map_cons, rxHere, rxDeriv_lower, ih]

theorem rxSearch_lower : ∀ (l : List Nat) (r : Rx), rxSearch r (l.map lowerNat) = rxSearch r l := by
  intro l
  induction l with
  | nil => intro r; rfl
  | cons c cs ih =>
    intro r
    simp only [List.map_cons, rxSearch, ih]
    rw [show (lowerNat c :: cs.map lowerNat) = (c :: cs).map lowerNat from rfl,
        rxHere_lower]

/-- C6. For every rule value (including malformed patterns such as a lone
opening parenthesis) and every present projected value, the matches and
not_matches operators are total: a pattern that fails to compile makes
both predicates false rather than faulting, and a compiled pattern is
applied with case folded, so a search result is unchanged by lower-casing
the subject. -/
theorem c6_regex_safety :
    (∀ (v a : JSVal), compileRegex (jsToString v) = none →
      checkCondition (some a) "matches" v = false ∧
      checkCondition (some a) "not_matches" v = false)
    ∧ compileRegex "(" = none
    ∧ (∀ (r : Rx) (l : List Nat), rxSearch r (l.map lowerNat) = rxSearch r l)
    ∧ checkCondition (some (.str "MOZILLA/5.0")) "matches" (.str "mozilla") = true
    ∧ checkCondition (some (.str "xyz")) "matches" (.str "(") = false
    ∧ checkCondition (some (.str "xyz")) "not_matches" (.str "(") = false := by
  refine ⟨?_, by decide, ?_, by decide, by decide, by decide⟩
  · intro v a h
    constructor
    · simp [checkCondition, h]
    · simp [checkCondition, h]
  · intro r l
    exact rxSearch_lower l r

/-- Witness for C6 at the concrete malformed pattern of the claim. -/
theorem c6_regex_safety_witness :
    compileRegex (jsToString (JSVal.str "(")) = none ∧
    checkCondition (some (JSVal.str "xyz")) "matches" (JSVal.str "(") = false ∧
    checkCondition (some (JSVal.str "xyz")) "not_matches" (JSVal.str "(") = false := by
  refine ⟨by decide, ?_, ?_⟩
  · exact (c6_regex_safety.1 (JSVal.str "(") (JSVal.str "xyz") (by decide)).1
  · exact (c6_regex_safety.1 (JSVal.str "(") (JSVal.str "xyz") (by decide)).2

/-- C7. A predicate whose operator is not a null test is false on an
absent projected value; the null tests characterise absence exactly; and
a field outside the projected vocabulary reads as absent, so every
ordinary predicate on it is false. -/
theorem c7_absent_fields :
    (∀ (op : String) (v : JSVal), op ≠ "is_null" → op ≠ "is_not_null" →
      checkCondition none op v = false)
    ∧ (∀ (a : Option JSVal) (v : JSVal), (checkCondition a "is_null" v = true ↔ a = none))
    ∧ (∀ (a : Option JSVal) (v : JSVal), (checkCondition a "is_not_null" v = true ↔ a ≠ none))
    ∧ (∀ (req : WafRequest) (field : String),
        (∀ p ∈ getRequestData req, p.1 ≠ field) → requestDataOf req field = none)
    ∧ requestDataOf reqEx "totally.unknown.field" = none
    ∧ (∀ (v : JSVal), checkCondition (requestDataOf reqEx "totally.unknown.field") "equals" v = false) := by
  refine ⟨?_, ?_, ?_, ?_, rfl, ?_⟩
  · intro op v h1 h2
    have e1 : (op == "is_null") = false := by simpa using h1
    have e2 : (op == "is_not_null") = false := by simpa using h2
    simp [checkCondition, e1, e2]
  · intro a v
    cases a <;> simp [checkCondition]
  · intro a v
    cases a <;> simp [checkCondition]
  · intro req field h
    unfold requestDataOf
    have hnone : (getRequestData req).reverse.find? (fun p => p.1 == field) = none := by
      rw [List.find?_eq_none]
      intro p hp
      simpa using h p (List.mem_reverse.mp hp)
    rw [hnone]
  · intro v
    have e : requestDataOf reqEx "totally.unknown.field" = none := rfl
    rw [e]
    simp [checkCondition]

/-- Witness for C7 at a concrete non-null operator and value. -/
theorem c7_absent_fields_witness :
    checkCondition none "equals" (JSVal.str "x") = false ∧
    requestDataOf reqEx "totally.unknown.field" = none := by
  refine ⟨c7_absent_fields.1 "equals" (JSVal.str "x") (by decide) (by decide), ?_⟩
  have hb : (getRequestData reqEx).all (fun q => q.1 != "totally.unknown.field") = true := by
    decide
  have h : ∀ p ∈ getRequestData reqEx, p.1 ≠ "totally.unknown.field" := by
    intro p hp
    simpa using List.all_eq_true.mp hb p hp
  exact c7_absent_fields.2.2.2.1 reqEx "totally.unknown.field" h

/-- C8. The expression evaluator returns true on the empty predicate
list, is true exactly when every predicate holds, and a false head
predicate decides the whole expression no matter the tail. -/
theorem c8_expression_semantics :
    (∀ (d : String → Option JSVal), evaluateExpression [] d = true)
    ∧ (∀ (l : List Predicate) (d : String → Option JSVal),
        evaluateExpression l d = true ↔
          ∀ p ∈ l, checkCondition (d p.field) p.operator p.value = true)
    ∧ (∀ (m : Predicate) (rest : List Predicate) (d : String → Option JSVal),
        checkCondition (d m.field) m.operator m.value = false →
        evaluateExpression (m :: rest) d = false) := by
  refine ⟨?_, evaluateExpression_true_iff, ?_⟩
  · intro d; rfl
  · intro m rest d h
    simp [evaluateExpression, h]

/-- Witness for C8: a false method predicate makes the expression false
on the example request. -/
theorem c8_expression_semantics_witness :
    checkCondition (requestDataOf reqEx "request.method") "equals" (JSVal.str "POST") = false ∧
    evaluateExpression
      [{ field := "request.method", operator := "equals", value := JSVal.str "POST" },
       { field := "derived.uri.path", operator := "equals", value := JSVal.str "/" }]
      (requestDataOf reqEx) = false := by
  refine ⟨by decide, ?_⟩
  exact c8_expression_semantics.2.2
    { field := "request.method", operator := "equals", value := JSVal.str "POST" }
    [{ field := "derived.uri.path", operator := "equals", value := JSVal.str "/" }]
    (requestDataOf reqEx) (by decide)

/-- C9. Both store evaluations are deterministic over a fixed snapshot:
running the RPC twice from the same store state yields the same decision
both times and leaves the store state fixed after the first load. -/
theorem c9_determinism (gst : GlobalStore) (rst : RouteStore) (req : WafRequest) :
    ((gst.evaluateRpc req).1 = ((gst.evaluateRpc req).2.evaluateRpc req).1 ∧
     ((gst.evaluateRpc req).2.evaluateRpc req).2 = (gst.evaluateRpc req).2)
    ∧ ((rst.evaluateRpc req).1 = ((rst.evaluateRpc req).2.evaluateRpc req).1 ∧
       ((rst.evaluateRpc req).2.evaluateRpc req).2 = (rst.evaluateRpc req).2) := by
  obtain ⟨gdb, gcache⟩ := gst
  obtain ⟨rdb, rcache⟩ := rst
  cases gcache <;> cases rcache <;>
    simp [GlobalStore.evaluateRpc, GlobalStore.loadCache,
          RouteStore.evaluateRpc, RouteStore.loadCache]

/-- C10. A present projected value that is not a string makes both the
contains and the not_contains predicates false, so on such values
not_contains is not the negation of contains; shown concretely at the
numeric value 5. -/
theorem c10_contains_nonstring :
    (∀ (a v : JSVal), a.isStr = false →
      checkCondition (some a) "contains" v = false ∧
      checkCondition (some a) "not_contains" v = false)
    ∧ checkCondition (some (.num 5)) "contains" (.str "5") = false
    ∧ checkCondition (some (.num 5)) "not_contains" (.str "5") = false
    ∧ checkCondition (some (.num 5)) "not_contains" (.str "5")
        ≠ !(checkCondition (some (.num 5)) "contains" (.str "5")) := by
  refine ⟨?_, by decide, by decide, by decide⟩
  intro a v h
  constructor
  · simp [checkCondition, h]
  · simp [checkCondition, h]

/-- Witness for C10 at the numeric value 5. -/
theorem c10_contains_nonstring_witness :
    (JSVal.num 5).isStr = false ∧
    checkCondition (some (JSVal.num 5)) "contains" (JSVal.str "x") = false ∧
    checkCondition (some (JSVal.num 5)) "not_contains" (JSVal.str "x") = false := by
  refine ⟨by decide, ?_, ?_⟩
  · exact (c10_contains_nonstring.1 (JSVal.num 5) (JSVal.str "x") (by decide)).1
  · exact (c10_contains_nonstring.1 (JSVal.num 5) (JSVal.str "x") (by decide)).2

theorem handleEvaluate_eq_some {rules : List Rule} {req : WafRequest} {rule : Rule}
    (h : findFirstMatch (activeRules rules) (requestDataOf req) = some rule) :
    RouteRulesDO.handleEvaluate rules req =
      { action := rule.action, matchedRuleId := rule.id, blockHttpCode := some (blockCode rule) } := by
  unfold RouteRulesDO.handleEvaluate
  rw [h]

theorem handleEvaluate_eq_none {rules : List Rule} {req : WafRequest}
    (h : findFirstMatch (activeRules rules) (requestDataOf req) = none) :
    RouteRulesDO.handleEvaluate rules req =
      { action := "BLOCK", matchedRuleId := "default-route-block", blockHttpCode := none } := by
  unfold RouteRulesDO.handleEvaluate
  rw [h]

theorem evaluate_eq_some {S : GlobalSnapshot} {req : WafRequest} {rule : Rule}
    (h : findFirstMatch (activeRules S.globalRules) (requestDataOf req) = some rule) :
    GlobalRulesDO.evaluate S req =
      { action := rule.action, matchedRuleId := some rule.id,
        blockResponse := some (resolveBlockResponse S.errorPages (blockCode rule)),
        matchedRoute := GlobalRulesDO.findMatchingRoute (GlobalRulesDO.hostOf req) S.routes } := by
  unfold GlobalRulesDO.evaluate
  rw [h]

theorem evaluate_eq_none_some {S : GlobalSnapshot} {req : WafRequest} {r : Route}
    (hm : findFirstMatch (activeRules S.globalRules) (requestDataOf req) = none)
    (hr : GlobalRulesDO.findMatchingRoute (GlobalRulesDO.hostOf req) S.routes = some r) :
    GlobalRulesDO.evaluate S req =
      { action := "ALLOW", matchedRuleId := none, blockResponse := none,
        matchedRoute := some r } := by
  unfold GlobalRulesDO.evaluate
  rw [hm, hr]

theorem evaluate_eq_none_none {S : GlobalSnapshot} {req : WafRequest}
    (hm : findFirstMatch (activeRules S.globalRules) (requestDataOf req) = none)
    (hr : GlobalRulesDO.findMatchingRoute (GlobalRulesDO.hostOf req) S.routes = none) :
    GlobalRulesDO.evaluate S req =
      { action := "NONE", matchedRuleId := none, blockResponse := none,
        matchedRoute := none } := by
  unfold GlobalRulesDO.evaluate
  rw [hm, hr]

/-- C2. Route evaluation with no matching enabled rule returns the
default-block outcome: action BLOCK with the sentinel rule id; and the
pipeline admits a request to the origin only when the route evaluator
reached a matching enabled rule whose action is ALLOW or LOG. -/
theorem c2_route_default_block (rules : List Rule) (S : GlobalSnapshot)
    (rr : String → List Rule) (hs : String → Bool) (req : WafRequest) :
    ((∀ r ∈ rules, r.enabled = true → ruleMatches r (requestDataOf req) = false) →
      RouteRulesDO.handleEvaluate rules req =
        { action := "BLOCK", matchedRuleId := "default-route-block", blockHttpCode := none })
    ∧ (originAdmitted (workerFetch S rr hs req) = true →
        ∃ route rule,
          GlobalRulesDO.findMatchingRoute (GlobalRulesDO.hostOf req) S.routes = some route ∧
          rule ∈ rr route.id ∧ rule.enabled = true ∧
          ruleMatches rule (requestDataOf req) = true ∧
          (rule.action = "ALLOW" ∨ rule.action = "LOG") ∧
          (RouteRulesDO.handleEvaluate (rr route.id) req).matchedRuleId = rule.id) := by
  constructor
  · intro h
    exact handleEvaluate_eq_none (activeRules_no_match h)
  · intro hadm
    simp only [workerFetch] at hadm
    cases hr : GlobalRulesDO.findMatchingRoute (GlobalRulesDO.hostOf req) S.routes with
    | none =>
      exfalso
      cases hg : findFirstMatch (activeRules S.globalRules) (requestDataOf req) with
      | some grule =>
        rw [evaluate_eq_some hg, hr] at hadm
        dsimp only at hadm
        split at hadm
        · simp [originAdmitted] at hadm
        · rw [if_neg (by simp)] at hadm
          split at hadm <;> simp [originAdmitted] at hadm
      | none =>
        rw [evaluate_eq_none_none hg hr] at hadm
        dsimp only at hadm
        rw [if_neg (by decide), if_neg (by decide)] at hadm
        split at hadm <;> simp [originAdmitted] at hadm
    | some route =>
      cases hg : findFirstMatch (activeRules S.globalRules) (requestDataOf req) with
      | some grule =>
        rw [evaluate_eq_some hg, hr] at hadm
        dsimp only at hadm
        split at hadm
        · exfalso; simp [originAdmitted] at hadm
        · split at hadm
          · cases hfm : findFirstMatch (activeRules (rr route.id)) (requestDataOf req) with
            | none =>
              exfalso
              rw [handleEvaluate_eq_none hfm] at hadm
              simp [originAdmitted] at hadm
            | some rule =>
              rw [handleEvaluate_eq_some hfm] at hadm
              dsimp only at hadm
              split at hadm
              · rename_i hact
                simp only [Bool.or_eq_true, beq_iff_eq] at hact
                rcases findFirstMatch_some hfm with ⟨hmem, hmatch⟩
                rcases mem_activeRules.mp hmem with ⟨hin, hen⟩
                refine ⟨route, rule, rfl, hin, hen, hmatch, hact, ?_⟩
                rw [handleEvaluate_eq_some hfm]
              · exfalso; simp [originAdmitted] at hadm
          · exfalso
            split at hadm <;> simp [originAdmitted] at hadm
      | none =>
        rw [evaluate_eq_none_some hg hr] at hadm
        dsimp only at hadm
        rw [if_neg (by decide), if_pos (by simp)] at hadm
        cases hfm : findFirstMatch (activeRules (rr route.id)) (requestDataOf req) with
        | none =>
          exfalso
          rw [handleEvaluate_eq_none hfm] at hadm
          simp [originAdmitted] at hadm
        | some rule =>
          rw [handleEvaluate_eq_some hfm] at hadm
          dsimp only at hadm
          split at hadm
          · rename_i hact
            simp only [Bool.or_eq_true, beq_iff_eq] at hact
            rcases findFirstMatch_some hfm with ⟨hmem, hmatch⟩
            rcases mem_activeRules.mp hmem with ⟨hin, hen⟩
            refine ⟨route, rule, rfl, hin, hen, hmatch, hact, ?_⟩
            rw [handleEvaluate_eq_some hfm]
          · exfalso; simp [originAdmitted] at hadm

/-- Witness for C2: the empty ruleset produces the default block on the
example request, and the admitting pipeline run exposes its ALLOW rule. -/
theorem c2_route_default_block_witness :
    RouteRulesDO.handleEvaluate [] reqEx =
      { action := "BLOCK", matchedRuleId := "default-route-block", blockHttpCode := none } ∧
    ∃ route rule,
      GlobalRulesDO.findMatchingRoute (GlobalRulesDO.hostOf reqEx) S0.routes = some route ∧
      rule ∈ (fun (_ : String) => [ruleAllowAll]) route.id ∧ rule.enabled = true ∧
      ruleMatches rule (requestDataOf reqEx) = true ∧
      (rule.action = "ALLOW" ∨ rule.action = "LOG") ∧
      (RouteRulesDO.handleEvaluate ((fun (_ : String) => [ruleAllowAll]) route.id) reqEx).matchedRuleId = rule.id := by
  constructor
  · exact (c2_route_default_block [] S0 (fun _ => []) (fun _ => false) reqEx).1
      (by intro r hr; cases hr)
  · exact (c2_route_default_block [] S0 (fun _ => [ruleAllowAll]) (fun _ => false) reqEx).2
      (by decide)

/-- C3 counterexample. Two enabled always-matching rules share priority 5;
the stored list holds id b before id a. The evaluator returns the rule
with id b, not the lexicographically smaller id a the claim requires. -/
theorem c3_counterexample :
    ruleB.priority = 5 ∧ ruleA.priority = 5 ∧ ruleB.id = "b" ∧ ruleA.id = "a" ∧
    ruleB.enabled = true ∧ ruleA.enabled = true ∧
    ruleMatches ruleB (requestDataOf reqEx) = true ∧
    ruleMatches ruleA (requestDataOf reqEx) = true ∧
    (RouteRulesDO.handleEvaluate [ruleB, ruleA] reqEx).matchedRuleId = "b" ∧
    ("b" : String) ≠ "a" := by
  refine ⟨by decide, by decide, by decide, by decide, by decide, by decide, rfl, rfl, rfl,
    by decide⟩

/-- C3 amended. The returned rule is an enabled matching rule of minimum
priority among the enabled matching rules, and it is the earliest such
minimal rule in the stored list order: the list splits at the returned
rule so that every enabled matching rule before it has strictly greater
priority (the sort is stable and compares only priorities, never ids). -/
theorem c3_amended (rules : List Rule) (req : WafRequest) (rule : Rule)
    (h : findFirstMatch (activeRules rules) (requestDataOf req) = some rule) :
    (rule ∈ rules ∧ rule.enabled = true ∧ ruleMatches rule (requestDataOf req) = true ∧
      (∀ r ∈ rules, r.enabled = true → ruleMatches r (requestDataOf req) = true →
        rule.priority ≤ r.priority)) ∧
    (∃ pre suf, rules = pre ++ rule :: suf ∧
      ∀ r ∈ pre, r.enabled = true → ruleMatches r (requestDataOf req) = true →
        rule.priority < r.priority) := by
  constructor
  · rcases findFirstMatch_some h with ⟨hmem, hmatch⟩
    rcases mem_activeRules.mp hmem with ⟨hin, hen⟩
    refine ⟨hin, hen, hmatch, ?_⟩
    intro r hr hren hrm
    have hr2 : r ∈ activeRules rules := mem_activeRules.mpr ⟨hr, hren⟩
    exact findFirstMatch_min (pairwise_sortRules _) h r hr2 hrm
  · have h2 : firstMinMatch rules (requestDataOf req) = some rule := by
      rw [← findFirstMatch_activeRules]
      exact h
    exact firstMinMatch_split h2

/-- Witness for the amended C3 at the concrete tied rule list: the rule
with id b, stored first, is returned with the empty-list split in front
of it. -/
theorem c3_amended_witness :
    findFirstMatch (activeRules [ruleB, ruleA]) (requestDataOf reqEx) = some ruleB ∧
    ruleB ∈ [ruleB, ruleA] ∧ ruleB.enabled = true ∧
    ruleMatches ruleB (requestDataOf reqEx) = true ∧
    (∀ r ∈ [ruleB, ruleA], r.enabled = true → ruleMatches r (requestDataOf reqEx) = true →
      ruleB.priority ≤ r.priority) ∧
    (∃ pre suf, [ruleB, ruleA] = pre ++ ruleB :: suf ∧
      ∀ r ∈ pre, r.enabled = true → ruleMatches r (requestDataOf reqEx) = true →
        ruleB.priority < r.priority) := by
  have h : findFirstMatch (activeRules [ruleB, ruleA]) (requestDataOf reqEx) = some ruleB := rfl
  have h2 := c3_amended [ruleB, ruleA] reqEx ruleB h
  exact ⟨h, h2.1.1, h2.1.2.1, h2.1.2.2.1, h2.1.2.2.2, h2.2⟩

/-- C4 counterexample. Both wildcard routes match the host a.ex.com, the
route for *.ex.com carries the longer matching suffix, yet the router
returns the earlier-listed route for *.com. -/
theorem c4_counterexample :
    strStarts rCom.incomingHost "*." = true ∧
    strEnds "a.ex.com" (String.mk ('.' :: rCom.incomingHost.data.drop 2)) = true ∧
    strStarts rStar.incomingHost "*." = true ∧
    strEnds "a.ex.com" (String.mk ('.' :: rStar.incomingHost.data.drop 2)) = true ∧
    rStar.incomingHost.length > rCom.incomingHost.length ∧
    GlobalRulesDO.findMatchingRoute "a.ex.com" [rCom, rStar] = some rCom ∧
    rCom ≠ rStar := by
  refine ⟨by decide, by decide, by decide, by decide, by decide, by decide, by decide⟩

/-- C4 amended. The router returns the exact-host route when one exists;
when no exact host matches, the returned route is the FIRST route in
list order that starts with a left wildcard and whose dot-prefixed
suffix ends the host, witnessed by a list split at the returned route
before which no route wildcard-matches; a returned route always
satisfies the exact or the wildcard relation, absence of a match returns
no route, and the wildcard *.ex.com accepts a.b.ex.com while rejecting
the bare apex ex.com. -/
theorem c4_amended (host : String) (routes : List Route) :
    (∀ r, GlobalRulesDO.findMatchingRoute host routes = some r →
      r ∈ routes ∧
        (r.incomingHost = host ∨
          (strStarts r.incomingHost "*." = true ∧
           strEnds host (String.mk ('.' :: r.incomingHost.data.drop 2)) = true)))
    ∧ ((∃ r ∈ routes, r.incomingHost = host) →
        ∃ r2, GlobalRulesDO.findMatchingRoute host routes = some r2 ∧ r2.incomingHost = host)
    ∧ (GlobalRulesDO.findMatchingRoute host routes = none →
        ∀ r ∈ routes, r.incomingHost ≠ host ∧
          ¬(strStarts r.incomingHost "*." = true ∧
            strEnds host (String.mk ('.' :: r.incomingHost.data.drop 2)) = true))
    ∧ (∀ r, (∀ q ∈ routes, q.incomingHost ≠ host) →
        GlobalRulesDO.findMatchingRoute host routes = some r →
        ∃ pre suf, routes = pre ++ r :: suf ∧
          ∀ q ∈ pre, ¬(strStarts q.incomingHost "*." = true ∧
            strEnds host (String.mk ('.' :: q.incomingHost.data.drop 2)) = true))
    ∧ GlobalRulesDO.findMatchingRoute "a.b.ex.com" [rStar] = some rStar
    ∧ GlobalRulesDO.findMatchingRoute "ex.com" [rStar] = none := by
  refine ⟨?_, ?_, ?_, ?_, by decide, by decide⟩
  · intro r h
    unfold GlobalRulesDO.findMatchingRoute at h
    cases he : routes.find? (fun q => q.incomingHost == host) with
    | some r2 =>
      rw [he] at h
      cases h
      refine ⟨List.mem_of_find?_eq_some he, Or.inl ?_⟩
      have := List.find?_some he
      simpa using this
    | none =>
      rw [he] at h
      refine ⟨List.mem_of_find?_eq_some h, Or.inr ?_⟩
      have := List.find?_some h
      simpa using this
  · rintro ⟨r, hr, hhost⟩
    have hsome : (routes.find? (fun q => q.incomingHost == host)).isSome := by
      rw [List.find?_isSome]
      exact ⟨r, hr, by simpa using hhost⟩
    cases he : routes.find? (fun q => q.incomingHost == host) with
    | none => rw [he] at hsome; cases hsome
    | some r2 =>
      refine ⟨r2, ?_, ?_⟩
      · unfold GlobalRulesDO.findMatchingRoute
        rw [he]
      · have := List.find?_some he
        simpa using this
  · intro h r hr
    unfold GlobalRulesDO.findMatchingRoute at h
    cases he : routes.find? (fun q => q.incomingHost == host) with
    | some r2 => rw [he] at h; cases h
    | none =>
      rw [he] at h
      constructor
      · have := List.find?_eq_none.mp he r hr
        simpa using this
      · have := List.find?_eq_none.mp h r hr
        simpa using this
  · intro r hex h
    have he : routes.find? (fun q => q.incomingHost == host) = none := by
      rw [List.find?_eq_none]
      intro q hq
      simpa using hex q hq
    unfold GlobalRulesDO.findMatchingRoute at h
    rw [he] at h
    rcases listFindSplit h with ⟨pre, suf, hs, hpre⟩
    refine ⟨pre, suf, hs, ?_⟩
    intro q hq hcon
    have hfalse := hpre q hq
    rw [hcon.1, hcon.2] at hfalse
    simp at hfalse

/-- Witness for the amended C4: the exact route for ex.com is returned
for the host ex.com, and with no exact match for a.ex.com the returned
wildcard route splits the list with no wildcard match before it. -/
theorem c4_amended_witness :
    (∃ r2, GlobalRulesDO.findMatchingRoute "ex.com" [rEx] = some r2 ∧
      r2.incomingHost = "ex.com") ∧
    (∃ pre suf, ([rCom, rStar] : List Route) = pre ++ rCom :: suf ∧
      ∀ q ∈ pre, ¬(strStarts q.incomingHost "*." = true ∧
        strEnds "a.ex.com" (String.mk ('.' :: q.incomingHost.data.drop 2)) = true)) := by
  constructor
  · exact (c4_amended "ex.com" [rEx]).2.1 ⟨rEx, by simp, by decide⟩
  · exact (c4_amended "a.ex.com" [rCom, rStar]).2.2.2.1 rCom (by decide) rfl

/-- C5 counterexample. The global tier admits through an ALLOW rule whose
block_http_code is 500 and the store holds a 500 error page; the route
store is empty, so the route tier blocks with default-route-block and no
block code. The claim demands the 403 forbidden fallback, but the worker
replies with the 500 page resolved from the global rule. -/
theorem c5_counterexample :
    RouteRulesDO.handleEvaluate [] reqEx =
      { action := "BLOCK", matchedRuleId := "default-route-block", blockHttpCode := none } ∧
    workerFetch S1 (fun _ => []) (fun _ => false) reqEx
      = .response 500 (some "text/plain") "custom-500" ∧
    workerFetch S1 (fun _ => []) (fun _ => false) reqEx
      ≠ .response 403 (some "text/html") "<h1>Forbidden</h1>" := by
  refine ⟨rfl, by decide, by decide⟩

/-- C5 amended. A global-tier BLOCK or CHALLENGE replies with the block
response resolved from the matched global rule code against error_pages;
a route-tier block reuses that same globally resolved response, ignoring
the route rule code; when the global tier admitted without any matching
rule, a route-tier block has no block response and the worker faults; and
resolution of a code with no stored page yields the hard-coded 403
forbidden body. -/
theorem c5_amended (S : GlobalSnapshot) (rr : String → List Rule)
    (hs : String → Bool) (req : WafRequest) :
    (∀ rule, findFirstMatch (activeRules S.globalRules) (requestDataOf req) = some rule →
      (rule.action = "BLOCK" ∨ rule.action = "CHALLENGE") →
      workerFetch S rr hs req =
        .response (resolveBlockResponse S.errorPages (blockCode rule)).statusCode
          (some (resolveBlockResponse S.errorPages (blockCode rule)).contentType)
          (resolveBlockResponse S.errorPages (blockCode rule)).body)
    ∧ (∀ rule route,
        findFirstMatch (activeRules S.globalRules) (requestDataOf req) = some rule →
        rule.action = "ALLOW" →
        GlobalRulesDO.findMatchingRoute (GlobalRulesDO.hostOf req) S.routes = some route →
        ¬((RouteRulesDO.handleEvaluate (rr route.id) req).action = "ALLOW" ∨
          (RouteRulesDO.handleEvaluate (rr route.id) req).action = "LOG") →
        workerFetch S rr hs req =
          .response (resolveBlockResponse S.errorPages (blockCode rule)).statusCode
            (some (resolveBlockResponse S.errorPages (blockCode rule)).contentType)
            (resolveBlockResponse S.errorPages (blockCode rule)).body)
    ∧ (∀ route,
        findFirstMatch (activeRules S.globalRules) (requestDataOf req) = none →
        GlobalRulesDO.findMatchingRoute (GlobalRulesDO.hostOf req) S.routes = some route →
        ¬((RouteRulesDO.handleEvaluate (rr route.id) req).action = "ALLOW" ∨
          (RouteRulesDO.handleEvaluate (rr route.id) req).action = "LOG") →
        workerFetch S rr hs req = .jsError)
    ∧ (∀ code : Int, (∀ p ∈ S.errorPages, p.httpCode ≠ code) →
        resolveBlockResponse S.errorPages code =
          { statusCode := 403, contentType := "text/html", body := "<h1>Forbidden</h1>" }) := by
  refine ⟨?_, ?_, ?_, ?_⟩
  · intro rule hg hact
    simp only [workerFetch]
    rw [evaluate_eq_some hg]
    dsimp only
    rcases hact with h | h <;> rw [h] <;> rw [if_pos (by decide)]
  · intro rule route hg hact hroute hnot
    simp only [workerFetch]
    rw [evaluate_eq_some hg, hroute, hact]
    dsimp only
    rw [if_neg (by decide), if_pos (by simp)]
    rw [if_neg (fun hc => hnot (by simpa using hc))]
  · intro route hg hroute hnot
    simp only [workerFetch]
    rw [evaluate_eq_none_some hg hroute]
    dsimp only
    rw [if_neg (by decide), if_pos (by simp)]
    rw [if_neg (fun hc => hnot (by simpa using hc))]
  · intro code h
    unfold resolveBlockResponse
    have he : S.errorPages.find? (fun p => p.httpCode == code) = none := by
      rw [List.find?_eq_none]
      intro p hp
      simpa using h p hp
    rw [he]

/-- Witness for the amended C5: the global BLOCK rule with no stored
pages yields the hard-coded forbidden response. -/
theorem c5_amended_witness :
    workerFetch SB (fun _ => []) (fun _ => false) reqEx =
      .response 403 (some "text/html") "<h1>Forbidden</h1>" := by
  have h := (c5_amended SB (fun _ => []) (fun _ => false) reqEx).1 gBlock rfl (Or.inl rfl)
  exact h.trans (by decide)

/-- C1 counterexample. The snapshot holds no global rules at all, so no
global rule matches; a route for the host exists and the route store has
an always-matching ALLOW rule. The pipeline dispatches to the origin
instead of terminating in the final deny the claim requires. -/
theorem c1_counterexample :
    S0.globalRules = [] ∧
    workerFetch S0 (fun _ => [ruleAllowAll]) (fun _ => false) reqEx
      = .dispatchUrl "https://origin.example" := by
  refine ⟨rfl, by decide⟩

/-- C1 amended. When no enabled global rule matches and no route matches
the host, the pipeline falls to the final deny (the landing page at the
root path, otherwise the 404 deny response); and route-tier evaluation
with origin dispatch is reached only when the global decision carries
action ALLOW together with a matched route, which happens either through
a matching enabled global ALLOW rule or through the admission fallback
that fires whenever no global rule matched and a route matches the
host. -/
theorem c1_amended (S : GlobalSnapshot) (rr : String → List Rule)
    (hs : String → Bool) (req : WafRequest) :
    ((∀ r ∈ S.globalRules, r.enabled = true → ruleMatches r (requestDataOf req) = false) →
      GlobalRulesDO.findMatchingRoute (GlobalRulesDO.hostOf req) S.routes = none →
      workerFetch S rr hs req =
        (if req.pathname = "/" then .landing
         else .response 404 none
           ("WAFu: No route configured for host \"" ++ GlobalRulesDO.hostOf req ++ "\".")))
    ∧ (originAdmitted (workerFetch S rr hs req) = true →
        (GlobalRulesDO.findMatchingRoute (GlobalRulesDO.hostOf req) S.routes).isSome = true ∧
        ((∃ rule ∈ S.globalRules, rule.enabled = true ∧
            ruleMatches rule (requestDataOf req) = true ∧ rule.action = "ALLOW") ∨
          (∀ r ∈ S.globalRules, r.enabled = true → ruleMatches r (requestDataOf req) = false))) := by
  constructor
  · intro hno hr
    have hg := activeRules_no_match hno
    simp only [workerFetch]
    rw [evaluate_eq_none_none hg hr]
    dsimp only
    rw [if_neg (by decide), if_neg (by decide)]
    by_cases hp : req.pathname = "/"
    · simp [hp]
    · simp [hp]
  · intro hadm
    simp only [workerFetch] at hadm
    cases hr : GlobalRulesDO.findMatchingRoute (GlobalRulesDO.hostOf req) S.routes with
    | none =>
      exfalso
      cases hg : findFirstMatch (activeRules S.globalRules) (requestDataOf req) with
      | some grule =>
        rw [evaluate_eq_some hg, hr] at hadm
        dsimp only at hadm
        split at hadm
        · simp [originAdmitted] at hadm
        · rw [if_neg (by simp)] at hadm
          split at hadm <;> simp [originAdmitted] at hadm
      | none =>
        rw [evaluate_eq_none_none hg hr] at hadm
        dsimp only at hadm
        rw [if_neg (by decide), if_neg (by decide)] at hadm
        split at hadm <;> simp [originAdmitted] at hadm
    | some route =>
      refine ⟨rfl, ?_⟩
      cases hg : findFirstMatch (activeRules S.globalRules) (requestDataOf req) with
      | some grule =>
        left
        rw [evaluate_eq_some hg, hr] at hadm
        dsimp only at hadm
        split at hadm
        · exfalso; simp [originAdmitted] at hadm
        · rename_i hcond
          split at hadm
          · rename_i hcond2
            simp only [Bool.and_eq_true, beq_iff_eq] at hcond2
            rcases findFirstMatch_some hg with ⟨hmem, hmatch⟩
            rcases mem_activeRules.mp hmem with ⟨hin, hen⟩
            exact ⟨grule, hin, hen, hmatch, hcond2.1⟩
          · exfalso
            split at hadm <;> simp [originAdmitted] at hadm
      | none =>
        right
        intro r hrin hren
        have := findFirstMatch_eq_none.mp hg r (mem_activeRules.mpr ⟨hrin, hren⟩)
        exact this

/-- Witness for the amended C1: with an empty snapshot and the root path
the pipeline lands on the landing page. -/
theorem c1_amended_witness :
    workerFetch Sempty (fun _ => []) (fun _ => false) reqEx = .landing := by
  have h := (c1_amended Sempty (fun _ => []) (fun _ => false) reqEx).1
    (by intro r hr; cases hr) (by decide)
  exact h.trans (by decide)
